import Mathlib

/-!
Shallow embedding of the review-extraction and text-analytics core of the
Muse repository (`selenium_scraper.py`, `analysis.py`), together with
theorems settling the specification claims about it.

External libraries (requests, BeautifulSoup parsing, VADER, scikit-learn
TfidfVectorizer and KMeans, Selenium) are abstracted as parameters; the
repository code built on top of them is translated definition by definition.
-/

namespace Muse

/-- Python whitespace characters (the ASCII range matched by `\s` and by
`str.split()` / `str.strip()` on the texts this pipeline handles). -/
def pySpace (c : Char) : Bool :=
  c = ' ' || c = '\t' || c = '\n' || c = '\r' || c = '\x0b' || c = '\x0c'

/-- Embedding of `re.sub(r"\s+", " ", t)`: replace every maximal whitespace
run by a single space. The boolean records whether the previous character
was whitespace (so the run has already emitted its space). -/
def collapseWs : Bool → List Char → List Char
  | _, [] => []
  | prev, c :: cs =>
    if pySpace c then
      if prev then collapseWs true cs else ' ' :: collapseWs true cs
    else c :: collapseWs false cs

/-- Embedding of `str.strip()`: drop leading and trailing whitespace. -/
def stripSpaces (l : List Char) : List Char :=
  ((l.dropWhile (pySpace ·)).reverse.dropWhile (pySpace ·)).reverse

/-- The normalization applied inside `_dedup` in `selenium_scraper.py`:
`re.sub(r"\s+", " ", (t or "")).strip()`. -/
def dnorm (s : String) : String :=
  ⟨stripSpaces (collapseWs false s.data)⟩

/-- Embedding of `_clean` in `analysis.py`: `t.strip()` followed by
`re.sub(r"\s+", " ", t)`. -/
def _clean (s : String) : String :=
  ⟨collapseWs false (stripSpaces s.data)⟩

/-- Worker for `str.split()` (no separator argument): collect the maximal
runs of non-whitespace characters. `acc` is the current run, reversed. -/
def pyWordsAux : List Char → List Char → List (List Char)
  | acc, [] => if acc.isEmpty then [] else [acc.reverse]
  | acc, c :: cs =>
    if pySpace c then
      if acc.isEmpty then pyWordsAux [] cs else acc.reverse :: pyWordsAux [] cs
    else pyWordsAux (c :: acc) cs

/-- Python `t.split()` on a character list. -/
def charWords (l : List Char) : List (List Char) :=
  pyWordsAux [] l

/-- Python `t.split()`. -/
def pyWords (s : String) : List (List Char) :=
  charWords s.data

/-- Python `len(t.split())`: the number of whitespace-separated tokens. -/
def wordCount (s : String) : Nat :=
  (pyWords s).length

/-- The deduplication key used by `_dedup`: `t.lower()[:key_len]`, the
lowercased text truncated to the first `keyLen` characters. -/
def dkey (keyLen : Nat) (t : String) : List Char :=
  (t.data.map Char.toLower).take keyLen

/-- Main loop of `_dedup`: `seen` holds the keys of the texts kept so far;
a text is normalized, skipped when under `minWords` tokens or when its key
was already seen, and otherwise kept (its key added to `seen`). -/
def dedupAux (minWords keyLen : Nat) (seen : List (List Char)) : List String → List String
  | [] => []
  | t :: ts =>
    let n := dnorm t
    if wordCount n < minWords then dedupAux minWords keyLen seen ts
    else if dkey keyLen n ∈ seen then dedupAux minWords keyLen seen ts
    else n :: dedupAux minWords keyLen (dkey keyLen n :: seen) ts

/-- Embedding of `_dedup(texts)` with its default arguments
`min_words=5, key_len=200`, as used everywhere in the scraper. -/
def _dedup (texts : List String) : List String :=
  dedupAux 5 200 [] texts

/-- The CSS selector groups `_extract_from_html` iterates over, in source
order: the four Okendo selectors, then the four comma-grouped generic
fallbacks (Judge.me, Shopify Reviews, Stamped, Yotpo). -/
inductive Sel
  | okeBody
  | okeContent
  | okeReviewContent
  | okeDataText
  | jdgm
  | spr
  | stamped
  | yotpo
deriving DecidableEq, Repr

/-- The Okendo selectors, looped over first by `_extract_from_html`. -/
def okendoSels : List Sel :=
  [.okeBody, .okeContent, .okeReviewContent, .okeDataText]

/-- The generic fallback selector groups, looped over second. -/
def genericSels : List Sel :=
  [.jdgm, .spr, .stamped, .yotpo]

/-- A parsed HTML element as the extractor observes it: which selector
groups it matches, and its visible text `el.get_text(" ", strip=True)`. -/
structure Element where
  sels : List Sel
  text : String
deriving DecidableEq, Repr

/-- A parsed HTML document. `structuredReviews` holds the review bodies
carried by embedded structured-data (JSON-LD) blocks of the page: they are
present in the HTML handed to `_extract_from_html`, which however only runs
CSS selectors and never reads them. -/
structure Doc where
  elements : List Element
  structuredReviews : List String
deriving DecidableEq, Repr

/-- Embedding of `soup.select(sel)`: the elements matching the selector
group, in document order. -/
def select (doc : Doc) (s : Sel) : List Element :=
  doc.elements.filter (fun e => s ∈ e.sels)

/-- Embedding of `_extract_from_html`: for each selector group in order,
collect the text of every matching element that has at least 5
whitespace-separated tokens, then deduplicate the concatenated hits. -/
def _extract_from_html (doc : Doc) : List String :=
  let hits := (okendoSels ++ genericSels).flatMap (fun s =>
    ((select doc s).map (·.text)).filter (fun t => decide (5 ≤ wordCount t)))
  _dedup hits

/-- Outcomes of the collaborator calls `scrape_reviews` makes, observed by
the orchestrator: the static fetch result (`.error` models a raised
exception such as a non-2xx status or network failure), the
`DISABLE_SELENIUM` environment flag, and the Selenium result. -/
structure ScrapeEnv where
  staticResult : Except Unit (List String)
  disableSelenium : Bool
  jsResult : Except Unit (List String)

/-- Embedding of `scrape_reviews(url, timeout)`, instrumented: the boolean
records whether the Selenium path `scrape_js_reviews` was invoked. The
static pass runs first inside a try/except; a truthy (non-empty) result is
returned immediately; otherwise an empty list is returned when
`DISABLE_SELENIUM` is `"1"`, and the Selenium result otherwise. -/
def scrape_reviews (env : ScrapeEnv) : Except Unit (List String) × Bool :=
  match env.staticResult with
  | .ok revs =>
    if revs.isEmpty then
      if env.disableSelenium then (.ok [], false) else (env.jsResult, true)
    else (.ok revs, false)
  | .error _ =>
    if env.disableSelenium then (.ok [], false) else (env.jsResult, true)

/-- The list comprehension shared verbatim by `senti`, `phrases` and
`clusters`: `[_clean(r) for r in (reviews or []) if r and len(r.split()) >= 5]`
(keep truthy reviews with at least 5 tokens, then clean each). -/
def filteredDocs (reviews : List String) : List String :=
  (reviews.filter (fun r => !r.isEmpty && decide (5 ≤ wordCount r))).map _clean

/-- Result record of `senti`:
`{"avg": ..., "distribution": {"pos": ..., "neu": ..., "neg": ...}}`. -/
structure SentimentSummary where
  avg : ℚ
  pos : Nat
  neu : Nat
  neg : Nat
deriving DecidableEq, Repr

/-- One iteration of the scoring loop in `senti`: add the compound score to
the running total and bump the bucket chosen by the fixed thresholds
(`s >= 0.05` positive, `s <= -0.05` negative, else neutral). -/
def sentiStep (sc : String → ℚ) (acc : ℚ × Nat × Nat × Nat) (r : String) :
    ℚ × Nat × Nat × Nat :=
  let s := sc r
  if 1/20 ≤ s then (acc.1 + s, acc.2.1 + 1, acc.2.2.1, acc.2.2.2)
  else if s ≤ -(1/20) then (acc.1 + s, acc.2.1, acc.2.2.1, acc.2.2.2 + 1)
  else (acc.1 + s, acc.2.1, acc.2.2.1 + 1, acc.2.2.2)

/-- Round a rational to the nearest integer, ties to even (Python
`round`). -/
def roundHalfEven (q : ℚ) : ℤ :=
  if q - ⌊q⌋ < 1/2 then ⌊q⌋
  else if 1/2 < q - ⌊q⌋ then ⌊q⌋ + 1
  else if ⌊q⌋ % 2 = 0 then ⌊q⌋ else ⌊q⌋ + 1

/-- Python `round(x, 3)`, idealized over the rationals. -/
def pyRound3 (q : ℚ) : ℚ :=
  (roundHalfEven (q * 1000) : ℚ) / 1000

/-- Embedding of `senti(reviews)`. The VADER analyzer is external; its
compound score is abstracted as `sc`. An empty filtered list short-circuits
to the all-zero summary; otherwise the scoring loop runs and the average is
the rounded total over `max(len(reviews), 1)`. -/
def senti (sc : String → ℚ) (reviews : List String) : SentimentSummary :=
  let rs := filteredDocs reviews
  if rs.isEmpty then ⟨0, 0, 0, 0⟩
  else
    let acc := rs.foldl (sentiStep sc) (0, 0, 0, 0)
    ⟨pyRound3 (acc.1 / (max rs.length 1 : ℚ)), acc.2.1, acc.2.2.1, acc.2.2.2⟩

/-- Embedding of `sorted(zip(feats, weights), key=weight, reverse=True)`:
a stable sort, descending by weight. -/
def sortByWeightDesc (pairs : List (String × ℚ)) : List (String × ℚ) :=
  pairs.mergeSort (fun a b => decide (b.2 ≤ a.2))

/-- Embedding of `phrases(reviews, k)`. The scikit-learn TfidfVectorizer is
external; it is abstracted as `vec`, the `fit_transform` call together with
the mean-weight and feature-name reads, returning `zip(feats, weights)` on
success and `.error` when `fit_transform` raises (it does, for instance,
when no review contributes a vectorizer term and the vocabulary is empty).
`phrases` has no exception handler, so a vectorizer error propagates to the
caller. On success the code sorts the pairs by weight descending, takes the
first `k` names, and only then removes names of length at most 2. -/
def phrases (vec : List String → Except Unit (List (String × ℚ))) (k : Nat)
    (reviews : List String) : Except Unit (List String) :=
  let docs := filteredDocs reviews
  if docs.isEmpty then .ok []
  else
    match vec docs with
    | .error e => .error e
    | .ok pw =>
      let pairs := sortByWeightDesc pw
      let out := (pairs.take k).map (·.1)
      .ok (out.filter (fun p => decide (2 < p.length)))

/-- Modelled from the spec: the claim reading of `phrases` in which terms
of length at most 2 characters are excluded from the top-K selection
itself, so the top `k` is taken among the longer terms only. Used to
compare the spec sentence with the code. -/
def phrasesSpecReading (vec : List String → Except Unit (List (String × ℚ)))
    (k : Nat) (reviews : List String) : Except Unit (List String) :=
  let docs := filteredDocs reviews
  if docs.isEmpty then .ok []
  else
    match vec docs with
    | .error e => .error e
    | .ok pw =>
      let pairs := sortByWeightDesc pw
      .ok (((pairs.filter (fun p => decide (2 < p.1.length))).take k).map (·.1))

/-- What `clusters` reads off a fitted KMeans model: the per-document
cluster labels and, per cluster, the feature names in descending centroid
weight order (row `i` of `order_centroids`). -/
structure KMResult where
  labels : List Nat
  topTerms : Nat → List String

/-- Embedding of `_shorten(s, words)`: keep the first `words` tokens and
append an ellipsis when the text is longer. -/
def _shorten (s : String) (words : Nat) : String :=
  let toks := pyWords s
  if toks.length ≤ words then s
  else ⟨List.intercalate [' '] (toks.take words) ++ ['…']⟩

/-- Embedding of `_compact_bullets(docs)`: up to 3 bullets, each shortened
to 20 words. -/
def _compact_bullets (docs : List String) : List String :=
  if docs.isEmpty then [] else (docs.take 3).map (fun r => _shorten r 20)

/-- Embedding of `clusters(reviews, n)`, instrumented. Two external steps
are abstracted separately, following the source control flow: `vecFit` is
the vectorizer `fit_transform` call (it sits OUTSIDE the try/except, so its
`.error`, raised for instance on an empty vocabulary, propagates to the
caller as the overall `.error` result); `km` is the KMeans construction and
fit INSIDE the try/except (receiving the effective cluster count and the
documents), whose `.error` is caught and falls back to the single-theme
bullets. The numeric output of the fitted vectorizer is consumed only by
KMeans and the centroid-term ordering, both folded into `km`. The boolean
records whether KMeans was invoked. Empty corpus and effective count 1
return before the vectorizer is ever constructed. -/
def clusters (vecFit : List String → Except Unit Unit)
    (km : Nat → List String → Except Unit KMResult)
    (reviews : List String) (n : Int) :
    Except Unit (List (String × List String)) × Bool :=
  let docs := filteredDocs reviews
  if docs.isEmpty then (.ok [("Themes (sample reviews)", [])], false)
  else
    let nEff := (max 1 (min n (docs.length : Int))).toNat
    if nEff = 1 then (.ok [("Theme 1", _compact_bullets docs)], false)
    else
      match vecFit docs with
      | .error e => (.error e, false)
      | .ok _ =>
        match km nEff docs with
        | .error _ => (.ok [("Theme 1", _compact_bullets docs)], true)
        | .ok r =>
          (.ok ((List.range nEff).map (fun i =>
            let summary := String.intercalate " • " (((r.topTerms i).take 6).take 3)
            let reps := (List.range docs.length).filterMap (fun j =>
              if r.labels.getD j 0 = i then some (docs.getD j "") else none)
            ("Theme " ++ toString (i + 1), [summary, _shorten (reps.headD "") 22]))),
           true)

/-- The normalized texts that survive the token filter of `_dedup`, in
input order: the candidates the dedup loop considers for keeping. -/
def passList (minWords : Nat) (texts : List String) : List String :=
  (texts.map dnorm).filter (fun t => decide (minWords ≤ wordCount t))

/-! ### Tokenization lemmas: `str.split()` is invariant under the
whitespace normalizations of `_dedup` and `_clean`. -/

theorem pyWordsAux_collapseWs (l : List Char) : ∀ (acc : List Char) (p : Bool),
    (p = true → acc = []) → pyWordsAux acc (collapseWs p l) = pyWordsAux acc l := by
  induction l with
  | nil => intro acc p _; rfl
  | cons c cs ih =>
    intro acc p hp
    cases hc : pySpace c
    case false =>
      simp only [collapseWs, hc, Bool.false_eq_true, if_false, pyWordsAux]
      exact ih (c :: acc) false (by simp)
    case true =>
      cases p
      case true =>
        rw [hp rfl]
        simp only [collapseWs, hc, if_true, pyWordsAux, List.isEmpty_nil]
        exact ih [] true (fun _ => rfl)
      case false =>
        simp only [collapseWs, hc, if_true, Bool.false_eq_true, if_false, pyWordsAux]
        have hsp : pySpace ' ' = true := rfl
        simp only [hsp, if_true]
        rw [ih [] true (fun _ => rfl)]

theorem pyWordsAux_all_spaces : ∀ (sp acc : List Char),
    (∀ c ∈ sp, pySpace c = true) → pyWordsAux acc sp = pyWordsAux acc [] := by
  intro sp
  induction sp with
  | nil => intro acc _; rfl
  | cons c cs ih =>
    intro acc h
    have hc : pySpace c = true := h c (List.mem_cons_self c cs)
    have hcs : ∀ x ∈ cs, pySpace x = true := fun x hx => h x (List.mem_cons_of_mem _ hx)
    have hnil : pyWordsAux [] cs = [] := ih [] hcs
    simp only [pyWordsAux, hc, if_true, hnil]

theorem pyWordsAux_append_spaces (l : List Char) : ∀ (acc sp : List Char),
    (∀ c ∈ sp, pySpace c = true) → pyWordsAux acc (l ++ sp) = pyWordsAux acc l := by
  induction l with
  | nil =>
    intro acc sp h
    exact pyWordsAux_all_spaces sp acc h
  | cons c cs ih =>
    intro acc sp h
    cases hc : pySpace c
    case false =>
      simp only [List.cons_append, pyWordsAux, hc, Bool.false_eq_true, if_false]
      exact ih (c :: acc) sp h
    case true =>
      simp only [List.cons_append, pyWordsAux, hc, if_true, List.append_eq]
      rw [ih [] sp h]

theorem charWords_dropWhile (l : List Char) :
    charWords (l.dropWhile (pySpace ·)) = charWords l := by
  induction l with
  | nil => rfl
  | cons c cs ih =>
    cases hc : pySpace c
    case false =>
      simp only [List.dropWhile_cons, hc, Bool.false_eq_true, if_false]
    case true =>
      simp only [List.dropWhile_cons, hc, if_true]
      rw [ih]
      simp only [charWords, pyWordsAux, hc, if_true, List.isEmpty_nil]

theorem charWords_stripSpaces (l : List Char) :
    charWords (stripSpaces l) = charWords l := by
  unfold stripSpaces
  have h1 : charWords (l.dropWhile (pySpace ·)) = charWords l := charWords_dropWhile l
  have hsplit :
      ((l.dropWhile (pySpace ·)).reverse.dropWhile (pySpace ·)).reverse ++
        ((l.dropWhile (pySpace ·)).reverse.takeWhile (pySpace ·)).reverse =
        l.dropWhile (pySpace ·) := by
    rw [← List.reverse_append, List.takeWhile_append_dropWhile, List.reverse_reverse]
  have hsp : ∀ c ∈ ((l.dropWhile (pySpace ·)).reverse.takeWhile (pySpace ·)).reverse,
      pySpace c = true := by
    intro c hcmem
    rw [List.mem_reverse] at hcmem
    exact List.mem_takeWhile_imp hcmem
  calc charWords (((l.dropWhile (pySpace ·)).reverse.dropWhile (pySpace ·)).reverse)
      = charWords (((l.dropWhile (pySpace ·)).reverse.dropWhile (pySpace ·)).reverse ++
          ((l.dropWhile (pySpace ·)).reverse.takeWhile (pySpace ·)).reverse) :=
        (pyWordsAux_append_spaces _ [] _ hsp).symm
    _ = charWords (l.dropWhile (pySpace ·)) := by rw [hsplit]
    _ = charWords l := h1

theorem wordCount_dnorm (s : String) : wordCount (dnorm s) = wordCount s := by
  show (charWords (stripSpaces (collapseWs false s.data))).length = (charWords s.data).length
  rw [charWords_stripSpaces]
  have h2 : charWords (collapseWs false s.data) = charWords s.data :=
    pyWordsAux_collapseWs s.data [] false (by simp)
  rw [h2]

theorem wordCount_clean (s : String) : wordCount (_clean s) = wordCount s := by
  show (charWords (collapseWs false (stripSpaces s.data))).length = (charWords s.data).length
  have h1 : charWords (collapseWs false (stripSpaces s.data)) = charWords (stripSpaces s.data) :=
    pyWordsAux_collapseWs (stripSpaces s.data) [] false (by simp)
  rw [h1, charWords_stripSpaces]

/-! ### Deduplication lemmas -/

theorem passList_cons (m : Nat) (t : String) (ts : List String) :
    passList m (t :: ts) =
      if m ≤ wordCount (dnorm t) then dnorm t :: passList m ts else passList m ts := by
  simp only [passList, List.map_cons, List.filter_cons]
  by_cases h : m ≤ wordCount (dnorm t)
  · simp [h]
  · simp [h]

theorem dedupAux_sublist (m kl : Nat) : ∀ (ts : List String) (seen : List (List Char)),
    (dedupAux m kl seen ts).Sublist (passList m ts) := by
  intro ts
  induction ts with
  | nil => intro seen; simp [dedupAux, passList]
  | cons t ts ih =>
    intro seen
    rw [passList_cons]
    simp only [dedupAux]
    by_cases h1 : wordCount (dnorm t) < m
    · have h1n : ¬ m ≤ wordCount (dnorm t) := by omega
      rw [if_pos h1, if_neg h1n]
      exact ih seen
    · have hle : m ≤ wordCount (dnorm t) := by omega
      rw [if_neg h1, if_pos hle]
      by_cases h2 : dkey kl (dnorm t) ∈ seen
      · rw [if_pos h2]
        exact (ih seen).trans (List.sublist_cons_self _ _)
      · rw [if_neg h2]
        exact List.Sublist.cons₂ _ (ih _)

theorem dedupAux_key_not_seen (m kl : Nat) :
    ∀ (ts : List String) (seen : List (List Char)) (u : String),
    u ∈ dedupAux m kl seen ts → dkey kl u ∉ seen := by
  intro ts
  induction ts with
  | nil => intro seen u hu; simp [dedupAux] at hu
  | cons t ts ih =>
    intro seen u hu
    simp only [dedupAux] at hu
    by_cases h1 : wordCount (dnorm t) < m
    · rw [if_pos h1] at hu
      exact ih seen u hu
    · rw [if_neg h1] at hu
      by_cases h2 : dkey kl (dnorm t) ∈ seen
      · rw [if_pos h2] at hu
        exact ih seen u hu
      · rw [if_neg h2] at hu
        rcases List.mem_cons.mp hu with rfl | hmem
        · exact h2
        · have := ih _ u hmem
          intro hcon
          exact this (List.mem_cons_of_mem _ hcon)

theorem dedupAux_pairwise (m kl : Nat) : ∀ (ts : List String) (seen : List (List Char)),
    (dedupAux m kl seen ts).Pairwise (fun a b => dkey kl a ≠ dkey kl b) := by
  intro ts
  induction ts with
  | nil => intro seen; simp [dedupAux]
  | cons t ts ih =>
    intro seen
    simp only [dedupAux]
    by_cases h1 : wordCount (dnorm t) < m
    · rw [if_pos h1]; exact ih seen
    · rw [if_neg h1]
      by_cases h2 : dkey kl (dnorm t) ∈ seen
      · rw [if_pos h2]; exact ih seen
      · rw [if_neg h2]
        refine List.Pairwise.cons ?_ (ih _)
        intro b hb hkeq
        have hnot := dedupAux_key_not_seen m kl ts _ b hb
        exact hnot (by rw [← hkeq]; exact List.mem_cons_self _ _)

theorem dedupAux_complete (m kl : Nat) :
    ∀ (ts : List String) (seen : List (List Char)) (t : String),
    t ∈ passList m ts → dkey kl t ∉ seen →
    ∃ u ∈ dedupAux m kl seen ts, dkey kl u = dkey kl t := by
  intro ts
  induction ts with
  | nil => intro seen t ht _; simp [passList] at ht
  | cons t0 ts ih =>
    intro seen t ht hseen
    rw [passList_cons] at ht
    simp only [dedupAux]
    by_cases h1 : wordCount (dnorm t0) < m
    · have h1n : ¬ m ≤ wordCount (dnorm t0) := by omega
      rw [if_neg h1n] at ht
      rw [if_pos h1]
      exact ih seen t ht hseen
    · have hle : m ≤ wordCount (dnorm t0) := by omega
      rw [if_pos hle] at ht
      rw [if_neg h1]
      by_cases h2 : dkey kl (dnorm t0) ∈ seen
      · rw [if_pos h2]
        rcases List.mem_cons.mp ht with rfl | hmem
        · exact absurd h2 hseen
        · exact ih seen t hmem hseen
      · rw [if_neg h2]
        rcases List.mem_cons.mp ht with rfl | hmem
        · exact ⟨dnorm t0, List.mem_cons_self _ _, rfl⟩
        · by_cases hk : dkey kl t = dkey kl (dnorm t0)
          · exact ⟨dnorm t0, List.mem_cons_self _ _, hk.symm⟩
          · have hseen2 : dkey kl t ∉ dkey kl (dnorm t0) :: seen := by
              intro hcon
              rcases List.mem_cons.mp hcon with heq | hin
              · exact hk heq
              · exact hseen hin
            obtain ⟨u, hu, hku⟩ := ih _ t hmem hseen2
            exact ⟨u, List.mem_cons_of_mem _ hu, hku⟩

theorem dedupAux_first (m kl : Nat) :
    ∀ (ts : List String) (seen : List (List Char)) (u : String),
    u ∈ dedupAux m kl seen ts →
    ∃ l1 l2, passList m ts = l1 ++ u :: l2 ∧
      ∀ v ∈ l1, dkey kl v ∈ seen ∨ dkey kl v ≠ dkey kl u := by
  intro ts
  induction ts with
  | nil => intro seen u hu; simp [dedupAux] at hu
  | cons t0 ts ih =>
    intro seen u hu
    simp only [dedupAux] at hu
    rw [passList_cons]
    by_cases h1 : wordCount (dnorm t0) < m
    · have h1n : ¬ m ≤ wordCount (dnorm t0) := by omega
      rw [if_neg h1n]
      rw [if_pos h1] at hu
      exact ih seen u hu
    · have hle : m ≤ wordCount (dnorm t0) := by omega
      rw [if_pos hle]
      rw [if_neg h1] at hu
      by_cases h2 : dkey kl (dnorm t0) ∈ seen
      · rw [if_pos h2] at hu
        obtain ⟨l1, l2, hsplit, hl1⟩ := ih seen u hu
        exact ⟨dnorm t0 :: l1, l2, by rw [hsplit, List.cons_append], by
          intro v hv
          rcases List.mem_cons.mp hv with rfl | hvm
          · exact Or.inl h2
          · exact hl1 v hvm⟩
      · rw [if_neg h2] at hu
        rcases List.mem_cons.mp hu with rfl | hmem
        · exact ⟨[], passList m ts, rfl, by intro v hv; simp at hv⟩
        · obtain ⟨l1, l2, hsplit, hl1⟩ := ih _ u hmem
          have hku : dkey kl u ≠ dkey kl (dnorm t0) := by
            have := dedupAux_key_not_seen m kl ts _ u hmem
            intro hcon
            exact this (by rw [hcon]; exact List.mem_cons_self _ _)
          refine ⟨dnorm t0 :: l1, l2, by rw [hsplit, List.cons_append], ?_⟩
          intro v hv
          rcases List.mem_cons.mp hv with rfl | hvm
          · exact Or.inr (fun hcon => hku hcon.symm)
          · rcases hl1 v hvm with hin | hne
            · rcases List.mem_cons.mp hin with heq | hin2
              · exact Or.inr (by rw [heq]; exact fun hcon => hku hcon.symm)
              · exact Or.inl hin2
            · exact Or.inr hne

theorem mem_dedup_wordCount (texts : List String) (u : String)
    (h : u ∈ _dedup texts) : 5 ≤ wordCount u := by
  have hs := dedupAux_sublist 5 200 texts []
  have hm : u ∈ passList 5 texts := hs.subset h
  simp only [passList, List.mem_filter, decide_eq_true_eq] at hm
  exact hm.2

/-! ### Claim theorems -/

/-- C5 counterexample: on the exact input quoted by the spec, the dedup
stage returns the empty list, not 2 entries headed by "Great product.":
both "Great product." (2 tokens) and "Other review text here." (4 tokens)
fall under the 5-token filter of `_dedup`. -/
theorem c5_spec_example_fails :
    _dedup ["Great product.", "great product.", "Other review text here."] = [] ∧
    ¬ ((_dedup ["Great product.", "great product.", "Other review text here."]).length = 2 ∧
       (_dedup ["Great product.", "great product.", "Other review text here."]).headD "" =
         "Great product.") := by
  refine ⟨by decide, ?_⟩
  rw [show _dedup ["Great product.", "great product.", "Other review text here."] = []
    from by decide]
  simp

/-- C5 amended: deduplication is case-insensitive, order-preserving and
first-occurrence-wins among fragments passing the 5-token filter (fragments
under 5 tokens are dropped, so the spec example itself yields the empty
list): the output is an order-preserving selection of the normalized
passing texts, no two outputs share a key, every passing text is
represented by its key, each output is the first passing text bearing its
key, and a 5-token variant of the spec example gives exactly 2 entries with
the first variant first. -/
theorem c5_dedup_case_insensitive_first_wins (texts : List String) :
    (_dedup texts).Sublist (passList 5 texts) ∧
    (_dedup texts).Pairwise (fun a b => dkey 200 a ≠ dkey 200 b) ∧
    (∀ t ∈ passList 5 texts, ∃ u ∈ _dedup texts, dkey 200 u = dkey 200 t) ∧
    (∀ u ∈ _dedup texts, ∃ l1 l2, passList 5 texts = l1 ++ u :: l2 ∧
       ∀ v ∈ l1, dkey 200 v ≠ dkey 200 u) ∧
    _dedup ["This is a great Product overall.", "this is a GREAT product overall.",
        "Here is the other review text."] =
      ["This is a great Product overall.", "Here is the other review text."] := by
  refine ⟨dedupAux_sublist 5 200 texts [], dedupAux_pairwise 5 200 texts [],
    ?_, ?_, by decide⟩
  · intro t ht
    exact dedupAux_complete 5 200 texts [] t ht (by simp)
  · intro u hu
    obtain ⟨l1, l2, hs, hv⟩ := dedupAux_first 5 200 texts [] u hu
    refine ⟨l1, l2, hs, ?_⟩
    intro v hvm
    rcases hv v hvm with hin | hne
    · simp at hin
    · exact hne

/-- C6: a text fragment with fewer than 5 whitespace-separated tokens never
appears in the output of `_dedup`, in the output of `_extract_from_html`,
or among the reviews the sentiment scorer actually scores (`filteredDocs`,
the filtered list the `senti` loop iterates over). -/
theorem c6_min_five_tokens_invariant (texts : List String) (doc : Doc)
    (reviews : List String) :
    (∀ t, wordCount t < 5 → t ∉ _dedup texts) ∧
    (∀ t, wordCount t < 5 → t ∉ _extract_from_html doc) ∧
    (∀ r, wordCount r < 5 → r ∉ filteredDocs reviews) := by
  refine ⟨?_, ?_, ?_⟩
  · intro t hlt hmem
    exact absurd (mem_dedup_wordCount texts t hmem) (by omega)
  · intro t hlt hmem
    simp only [_extract_from_html] at hmem
    exact absurd (mem_dedup_wordCount _ t hmem) (by omega)
  · intro r hlt hmem
    simp only [filteredDocs, List.mem_map, List.mem_filter, Bool.and_eq_true,
      decide_eq_true_eq] at hmem
    obtain ⟨x, ⟨_, _, hwc⟩, rfl⟩ := hmem
    rw [wordCount_clean] at hlt
    omega

set_option maxRecDepth 8192 in
/-- C10: on every extraction path, including the static one, the dedup key
is the lowercased first 200 characters of the normalized text: no two
outputs of `_dedup` or of `_extract_from_html` share that key, each kept
text is the first passing text bearing its key (so a later text whose
lowercased 200-character prefix matches an earlier kept one is dropped),
and two concrete 205-character texts that agree on their first 200
characters but differ beyond collapse to a single entry, in either order. -/
theorem c10_dedup_key_first200_lowercased (texts : List String) (doc : Doc) :
    (_dedup texts).Pairwise (fun a b => dkey 200 a ≠ dkey 200 b) ∧
    (_extract_from_html doc).Pairwise (fun a b => dkey 200 a ≠ dkey 200 b) ∧
    (∀ u ∈ _dedup texts, ∃ l1 l2, passList 5 texts = l1 ++ u :: l2 ∧
       ∀ v ∈ l1, dkey 200 v ≠ dkey 200 u) ∧
    (String.join (List.replicate 40 "word ") ++ "alpha" ≠
      String.join (List.replicate 40 "word ") ++ "beta!") ∧
    dkey 200 (String.join (List.replicate 40 "word ") ++ "alpha") =
      dkey 200 (String.join (List.replicate 40 "word ") ++ "beta!") ∧
    _dedup [String.join (List.replicate 40 "word ") ++ "alpha",
        String.join (List.replicate 40 "word ") ++ "beta!"] =
      [String.join (List.replicate 40 "word ") ++ "alpha"] ∧
    _dedup [String.join (List.replicate 40 "word ") ++ "beta!",
        String.join (List.replicate 40 "word ") ++ "alpha"] =
      [String.join (List.replicate 40 "word ") ++ "beta!"] := by
  refine ⟨dedupAux_pairwise 5 200 texts [], ?_, ?_, by decide, by decide, by decide,
    by decide⟩
  · simp only [_extract_from_html]
    exact dedupAux_pairwise 5 200 _ []
  · intro u hu
    obtain ⟨l1, l2, hs, hv⟩ := dedupAux_first 5 200 texts [] u hu
    refine ⟨l1, l2, hs, ?_⟩
    intro v hvm
    rcases hv v hvm with hin | hne
    · simp at hin
    · exact hne

/-- C1 counterexample: a document whose only review content is a
well-formed structured-data Review body (8 tokens, so it passes every
length filter) yields an empty extraction: `_extract_from_html` has no
structured-metadata strategy, so the body never reaches the output. -/
theorem c1_structured_review_not_extracted :
    5 ≤ wordCount "This vibrating massager exceeded all my expectations easily" ∧
    _extract_from_html
      ⟨[], ["This vibrating massager exceeded all my expectations easily"]⟩ = [] ∧
    "This vibrating massager exceeded all my expectations easily" ∉
      _extract_from_html
        ⟨[], ["This vibrating massager exceeded all my expectations easily"]⟩ := by
  refine ⟨by decide, rfl, ?_⟩
  rw [show _extract_from_html
      ⟨[], ["This vibrating massager exceeded all my expectations easily"]⟩ = []
    from rfl]
  simp

/-- C1 amended: `_extract_from_html` runs only the CSS-selector strategy.
Its output is unaffected by the structured-data blocks of the page, and
every returned review is the normalized text of some document element
matched by one of the eight selector groups; review bodies present only in
structured-data blocks are never included. -/
theorem c1_selector_strategy_only (els : List Element) (sr sr2 : List String) :
    _extract_from_html ⟨els, sr⟩ = _extract_from_html ⟨els, sr2⟩ ∧
    ∀ t ∈ _extract_from_html ⟨els, sr⟩, ∃ e ∈ els,
      (∃ s ∈ okendoSels ++ genericSels, s ∈ e.sels) ∧ t = dnorm e.text := by
  constructor
  · rfl
  · intro t ht
    simp only [_extract_from_html] at ht
    have hm := (dedupAux_sublist 5 200 _ []).subset ht
    simp only [passList, List.mem_filter, List.mem_map] at hm
    obtain ⟨⟨x, hx, rfl⟩, _⟩ := hm
    simp only [List.mem_flatMap, List.mem_filter, List.mem_map, select] at hx
    obtain ⟨s, hsmem, ⟨e, he, rfl⟩, _⟩ := hx
    exact ⟨e, he.1, ⟨s, hsmem, of_decide_eq_true he.2⟩, rfl⟩

/-- C3: whenever the static fetch returns a non-empty review list, the
acquisition orchestrator returns exactly that list and the Selenium
renderer is never invoked. -/
theorem c3_static_fast_path (env : ScrapeEnv) (revs : List String)
    (hok : env.staticResult = .ok revs) (hne : revs ≠ []) :
    scrape_reviews env = (.ok revs, false) := by
  simp [scrape_reviews, hok, hne]

/-- C3 witness: the fast path at a concrete environment. -/
theorem c3_static_fast_path_witness :
    scrape_reviews ⟨.ok ["This product is truly great overall"], false, .error ()⟩ =
      (.ok ["This product is truly great overall"], false) :=
  c3_static_fast_path _ ["This product is truly great overall"] rfl (by simp)

/-- C4: with rendering disabled by the environment flag, a failing or empty
static fetch makes acquisition return the empty review list without
invoking the renderer and without raising. -/
theorem c4_disabled_rendering_empty (env : ScrapeEnv)
    (hd : env.disableSelenium = true)
    (h : env.staticResult = .error () ∨ env.staticResult = .ok []) :
    scrape_reviews env = (.ok [], false) := by
  rcases h with h | h <;> simp [scrape_reviews, h, hd]

/-- C4 witness: a failing static fetch with rendering disabled. -/
theorem c4_disabled_rendering_empty_witness :
    scrape_reviews ⟨.error (), true, .error ()⟩ = (.ok [], false) :=
  c4_disabled_rendering_empty ⟨.error (), true, .error ()⟩ rfl (Or.inl rfl)

theorem foldl_sentiStep_counts (sc : String → ℚ) :
    ∀ (l : List String) (a : ℚ × Nat × Nat × Nat),
    (l.foldl (sentiStep sc) a).2.1 + (l.foldl (sentiStep sc) a).2.2.1 +
      (l.foldl (sentiStep sc) a).2.2.2 = a.2.1 + a.2.2.1 + a.2.2.2 + l.length := by
  intro l
  induction l with
  | nil => intro a; simp
  | cons r rs ih =>
    intro a
    rw [List.foldl_cons, ih]
    simp only [sentiStep, List.length_cons]
    by_cases h1 : (1 : ℚ)/20 ≤ sc r
    · rw [if_pos h1]; dsimp only; omega
    · rw [if_neg h1]
      by_cases h2 : sc r ≤ -(1/20)
      · rw [if_pos h2]; dsimp only; omega
      · rw [if_neg h2]; dsimp only; omega

/-- C7: the three distribution counts of `senti` sum to the number of
reviews that passed the 5-token filter and were scored, and an empty (or
fully filtered-out) input yields average 0 and an all-zero
distribution. -/
theorem c7_distribution_sums_to_scored (sc : String → ℚ) (reviews : List String) :
    (senti sc reviews).pos + (senti sc reviews).neu + (senti sc reviews).neg =
      (filteredDocs reviews).length ∧
    (filteredDocs reviews = [] → senti sc reviews = ⟨0, 0, 0, 0⟩) := by
  constructor
  · by_cases h : filteredDocs reviews = []
    · simp [senti, h]
    · have hne : (filteredDocs reviews).isEmpty = false := by
        simpa [List.isEmpty_iff] using h
      simp only [senti, hne, Bool.false_eq_true, if_false]
      have := foldl_sentiStep_counts sc (filteredDocs reviews) (0, 0, 0, 0)
      simpa using this
  · intro h
    simp [senti, h]

/-- C2 counterexample: an exception in the vectorization step propagates to
the caller, refuting "no exception propagates" on every input. On the
corpus `["a b c d e"]` (5 tokens, so it passes the length filter) every
token has a single character, so the vectorizer finds no terms (its default
token pattern keeps only tokens of 2 or more word characters) and its
`fit_transform` call raises an empty-vocabulary error; `phrases` has no
handler around that call and in `clusters` the call sits outside the
try/except that guards only KMeans. With the abstract vectorizer
instantiated to that real behavior, both functions return the error instead
of returning normally. -/
theorem c2_vectorizer_error_propagates :
    phrases (fun _ => .error ()) 12 ["a b c d e"] = .error () ∧
    clusters (fun _ => .error ()) (fun _ _ => .ok ⟨[], fun _ => []⟩)
      ["a b c d e", "f g h i j"] 3 = (.error (), false) := by
  exact ⟨rfl, rfl⟩

/-- C2 amended: sentiment scoring always returns normally; empty or fully
filtered-out input yields the defined zero/empty result in all three
functions (these paths return before any vectorizer is constructed); the
clamped-to-1 path of `clusters` also returns before vectorization; and a
failure inside the KMeans partitioning step is caught and falls back to the
single-theme representative-bullets result. However, a failure of the
TF-IDF vectorization step on a non-empty filtered corpus propagates to the
caller: from `phrases`, which has no handler, and from `clusters`, whose
`fit_transform` call sits outside its try/except. -/
theorem c2_analytics_error_paths (sc : String → ℚ)
    (vecP : List String → Except Unit (List (String × ℚ)))
    (vecC : List String → Except Unit Unit)
    (km : Nat → List String → Except Unit KMResult) (k : Nat) (n : Int)
    (reviews : List String) :
    (filteredDocs reviews = [] →
      senti sc reviews = ⟨0, 0, 0, 0⟩ ∧ phrases vecP k reviews = .ok [] ∧
      clusters vecC km reviews n = (.ok [("Themes (sample reviews)", [])], false)) ∧
    (filteredDocs reviews ≠ [] → vecP (filteredDocs reviews) = .error () →
      phrases vecP k reviews = .error ()) ∧
    (filteredDocs reviews ≠ [] →
      (max 1 (min n ((filteredDocs reviews).length : Int))).toNat ≠ 1 →
      vecC (filteredDocs reviews) = .error () →
      clusters vecC km reviews n = (.error (), false)) ∧
    (filteredDocs reviews ≠ [] →
      (max 1 (min n ((filteredDocs reviews).length : Int))).toNat = 1 →
      clusters vecC km reviews n =
        (.ok [("Theme 1", _compact_bullets (filteredDocs reviews))], false)) ∧
    (filteredDocs reviews ≠ [] →
      vecC (filteredDocs reviews) = .ok () →
      km ((max 1 (min n ((filteredDocs reviews).length : Int))).toNat)
          (filteredDocs reviews) = .error () →
      (clusters vecC km reviews n).1 =
        .ok [("Theme 1", _compact_bullets (filteredDocs reviews))]) := by
  refine ⟨?_, ?_, ?_, ?_, ?_⟩
  · intro h
    exact ⟨by simp [senti, h], by simp [phrases, h], by simp [clusters, h]⟩
  · intro h hv
    have hne : (filteredDocs reviews).isEmpty = false := by
      simpa [List.isEmpty_iff] using h
    simp only [phrases, hne, Bool.false_eq_true, if_false, hv]
  · intro h h1 hv
    have hne : (filteredDocs reviews).isEmpty = false := by
      simpa [List.isEmpty_iff] using h
    simp only [clusters, hne, Bool.false_eq_true, if_false]
    rw [if_neg h1]
    simp only [hv]
  · intro h h1
    have hne : (filteredDocs reviews).isEmpty = false := by
      simpa [List.isEmpty_iff] using h
    simp only [clusters, hne, Bool.false_eq_true, if_false]
    rw [if_pos h1]
  · intro h hv hk
    have hne : (filteredDocs reviews).isEmpty = false := by
      simpa [List.isEmpty_iff] using h
    simp only [clusters, hne, Bool.false_eq_true, if_false]
    by_cases h1 : (max 1 (min n ((filteredDocs reviews).length : Int))).toNat = 1
    · rw [if_pos h1]
    · rw [if_neg h1]
      simp only [hv, hk]

/-- C2 witness: with a succeeding vectorizer and a failing KMeans on a
concrete 2-review corpus, `clusters` returns the single-theme bullets. -/
theorem c2_analytics_error_paths_witness :
    (clusters (fun _ => .ok ()) (fun _ _ => .error ())
      ["alpha beta gamma delta epsilon", "one two three four five six"] 5).1 =
      .ok [("Theme 1", _compact_bullets (filteredDocs
        ["alpha beta gamma delta epsilon", "one two three four five six"]))] :=
  (c2_analytics_error_paths (fun _ => 0) (fun _ => .ok []) (fun _ => .ok ())
    (fun _ _ => .error ()) 12 5
    ["alpha beta gamma delta epsilon", "one two three four five six"]).2.2.2.2
    (by decide) rfl rfl

/-- C8: for a non-empty filtered corpus the effective cluster count of
`clusters` is `clamp(n, 1, corpus size)`: an empty corpus yields exactly
one entry with an empty list (neither the vectorizer nor KMeans is
invoked); when the clamped count is 1 the return happens before
vectorization, KMeans is never invoked and the single theme holds at most 3
shortened representative reviews; when vectorization succeeds and KMeans
runs and succeeds the theme map has exactly the clamped number of keys; and
when `n` is at least the corpus size the clamped count equals the corpus
size. -/
theorem c8_effective_cluster_count (vecC : List String → Except Unit Unit)
    (km : Nat → List String → Except Unit KMResult)
    (reviews : List String) (n : Int) :
    (filteredDocs reviews = [] →
      clusters vecC km reviews n = (.ok [("Themes (sample reviews)", [])], false)) ∧
    (filteredDocs reviews ≠ [] →
      (max 1 (min n ((filteredDocs reviews).length : Int))).toNat = 1 →
      clusters vecC km reviews n =
        (.ok [("Theme 1", _compact_bullets (filteredDocs reviews))], false) ∧
      (_compact_bullets (filteredDocs reviews)).length ≤ 3) ∧
    (∀ r, filteredDocs reviews ≠ [] →
      vecC (filteredDocs reviews) = .ok () →
      km ((max 1 (min n ((filteredDocs reviews).length : Int))).toNat)
          (filteredDocs reviews) = .ok r →
      ((clusters vecC km reviews n).1).map List.length =
        .ok ((max 1 (min n ((filteredDocs reviews).length : Int))).toNat)) ∧
    (filteredDocs reviews ≠ [] → ((filteredDocs reviews).length : Int) ≤ n →
      (max 1 (min n ((filteredDocs reviews).length : Int))).toNat =
        (filteredDocs reviews).length) := by
  refine ⟨?_, ?_, ?_, ?_⟩
  · intro h
    simp [clusters, h]
  · intro h h1
    have hne : (filteredDocs reviews).isEmpty = false := by
      simpa [List.isEmpty_iff] using h
    constructor
    · simp only [clusters, hne, Bool.false_eq_true, if_false]
      rw [if_pos h1]
    · simp only [_compact_bullets, hne, Bool.false_eq_true, if_false]
      rw [List.length_map, List.length_take]
      omega
  · intro r h hvec hok
    have hne : (filteredDocs reviews).isEmpty = false := by
      simpa [List.isEmpty_iff] using h
    simp only [clusters, hne, Bool.false_eq_true, if_false]
    by_cases h1 : (max 1 (min n ((filteredDocs reviews).length : Int))).toNat = 1
    · rw [if_pos h1, h1]; rfl
    · rw [if_neg h1]
      simp only [hvec, hok, Except.map]
      simp
  · intro h hn
    have hpos : 0 < (filteredDocs reviews).length := List.length_pos.mpr h
    omega

/-- C8 witness: a 2-review corpus with `n = 5`, a succeeding vectorizer and
a successful KMeans yields a theme map with `clamp(5, 1, 2) = 2` keys. -/
theorem c8_effective_cluster_count_witness :
    ((clusters (fun _ => .ok ()) (fun _ _ => Except.ok ⟨[0, 1], fun _ => []⟩)
      ["alpha beta gamma delta epsilon", "one two three four five six"] 5).1).map
        List.length =
    .ok ((max 1 (min 5 ((filteredDocs
      ["alpha beta gamma delta epsilon",
        "one two three four five six"]).length : Int))).toNat) :=
  (c8_effective_cluster_count (fun _ => .ok ())
    (fun _ _ => Except.ok ⟨[0, 1], fun _ => []⟩)
    ["alpha beta gamma delta epsilon", "one two three four five six"] 5).2.2.1
    ⟨[0, 1], fun _ => []⟩ (by decide) rfl rfl

/-- C9 counterexample: with a vectorizer output in which the 2-character
term "ok" outranks the 5-character bigram "ok ok", and `k = 1`, `phrases`
returns the empty list, while the spec reading (short terms excluded from
the top-K selection itself) returns the bigram: in the code the length
filter runs after the top-K cut, not before it. -/
theorem c9_short_term_in_topk_shrinks_result :
    phrases (fun _ => .ok [("ok", 5), ("ok ok", 4)]) 1 ["ok ok ok ok ok"] = .ok [] ∧
    phrasesSpecReading (fun _ => .ok [("ok", 5), ("ok ok", 4)]) 1 ["ok ok ok ok ok"] =
      .ok ["ok ok"] ∧
    phrases (fun _ => .ok [("ok", 5), ("ok ok", 4)]) 1 ["ok ok ok ok ok"] ≠
      phrasesSpecReading (fun _ => .ok [("ok", 5), ("ok ok", 4)]) 1
        ["ok ok ok ok ok"] := by
  have hd : filteredDocs ["ok ok ok ok ok"] = ["ok ok ok ok ok"] := rfl
  have hsort : sortByWeightDesc [("ok", (5 : ℚ)), ("ok ok", (4 : ℚ))] =
      [("ok", 5), ("ok ok", 4)] :=
    List.mergeSort_of_sorted (by norm_num)
  have h1 : phrases (fun _ => .ok [("ok", 5), ("ok ok", 4)]) 1 ["ok ok ok ok ok"] =
      .ok [] := by
    simp only [phrases, hd]
    rw [hsort]
    rfl
  have h2 : phrasesSpecReading (fun _ => .ok [("ok", 5), ("ok ok", 4)]) 1
      ["ok ok ok ok ok"] = .ok ["ok ok"] := by
    simp only [phrasesSpecReading, hd]
    rw [hsort]
    rfl
  refine ⟨h1, h2, ?_⟩
  rw [h1, h2]
  simp

/-- C9 amended: `phrases` returns the empty list when no review passes the
5-token filter; otherwise, when vectorization succeeds, it takes the top
`k` terms by descending mean TF-IDF weight and afterwards removes terms of
length at most 2 characters from that selection, so the result can be
shorter than `k` even when `k` longer terms exist. Every returned term has
more than 2 characters and comes from the top-`k` prefix of the
weight-sorted pairs, the returned terms appear in descending weight order,
and the result never exceeds `k` entries. -/
theorem c9_topk_cut_before_length_filter
    (vec : List String → Except Unit (List (String × ℚ)))
    (k : Nat) (reviews : List String) :
    (filteredDocs reviews = [] → phrases vec k reviews = .ok []) ∧
    (∀ pw, vec (filteredDocs reviews) = .ok pw →
      ∃ ps : List (String × ℚ),
        ps.Sublist (sortByWeightDesc pw) ∧
        ps.Pairwise (fun a b => b.2 ≤ a.2) ∧
        (∀ q ∈ ps, q ∈ (sortByWeightDesc pw).take k ∧ 2 < q.1.length) ∧
        ps.length ≤ k ∧
        phrases vec k reviews = .ok (ps.map (·.1))) := by
  have hempty : ∀ _ : filteredDocs reviews = [], phrases vec k reviews = .ok [] := by
    intro h
    simp [phrases, h]
  refine ⟨hempty, ?_⟩
  intro pw hpw
  by_cases h : filteredDocs reviews = []
  · exact ⟨[], List.nil_sublist _, List.Pairwise.nil, by simp, Nat.zero_le k,
      by rw [hempty h]; rfl⟩
  · have hne : (filteredDocs reviews).isEmpty = false := by
      simpa [List.isEmpty_iff] using h
    have hsorted : (sortByWeightDesc pw).Pairwise (fun a b => b.2 ≤ a.2) := by
      have hp := @List.sorted_mergeSort (String × ℚ)
        (fun a b => decide (b.2 ≤ a.2))
        (fun a b c hab hbc => by
          simp only [decide_eq_true_eq] at *
          exact le_trans hbc hab)
        (fun a b => by
          simp only [Bool.or_eq_true, decide_eq_true_eq]
          exact le_total b.2 a.2)
        pw
      exact hp.imp (fun hab => of_decide_eq_true hab)
    refine ⟨((sortByWeightDesc pw).take k).filter
        ((fun p => decide (2 < p.length)) ∘ (·.1)), ?_, ?_, ?_, ?_, ?_⟩
    · exact (List.filter_sublist _).trans (List.take_sublist k _)
    · exact List.Pairwise.sublist
        ((List.filter_sublist _).trans (List.take_sublist k _)) hsorted
    · intro q hq
      rw [List.mem_filter] at hq
      exact ⟨hq.1, by simpa using of_decide_eq_true hq.2⟩
    · calc (((sortByWeightDesc pw).take k).filter
            ((fun p => decide (2 < p.length)) ∘ (·.1))).length
          ≤ ((sortByWeightDesc pw).take k).length := (List.filter_sublist _).length_le
        _ ≤ k := by
            rw [List.length_take]
            exact min_le_left _ _
    · simp only [phrases, hne, Bool.false_eq_true, if_false, hpw]
      rw [List.filter_map]

/-- C1 witness: a concrete document where adding structured-data blocks
leaves the extraction unchanged. -/
theorem c1_selector_strategy_only_witness :
    _extract_from_html ⟨[⟨[.okeBody], "great product works well indeed"⟩],
        ["structured body text here now"]⟩ =
      _extract_from_html ⟨[⟨[.okeBody], "great product works well indeed"⟩], []⟩ :=
  (c1_selector_strategy_only [⟨[.okeBody], "great product works well indeed"⟩]
    ["structured body text here now"] []).1

/-- C5 witness: the concrete 5-token variant of the spec example. -/
theorem c5_dedup_case_insensitive_first_wins_witness :
    _dedup ["This is a great Product overall.", "this is a GREAT product overall.",
        "Here is the other review text."] =
      ["This is a great Product overall.", "Here is the other review text."] :=
  (c5_dedup_case_insensitive_first_wins []).2.2.2.2

/-- C6 witness: a concrete 3-token fragment is absent from the dedup of a
list containing it. -/
theorem c6_min_five_tokens_invariant_witness :
    "one two three" ∉ _dedup ["one two three"] :=
  (c6_min_five_tokens_invariant ["one two three"] ⟨[], []⟩ []).1 "one two three" (by decide)

/-- C7 witness: the counts of a concrete one-review scoring sum to the
filtered length. -/
theorem c7_distribution_sums_to_scored_witness :
    (senti (fun _ => 1) ["alpha beta gamma delta epsilon"]).pos +
        (senti (fun _ => 1) ["alpha beta gamma delta epsilon"]).neu +
        (senti (fun _ => 1) ["alpha beta gamma delta epsilon"]).neg =
      (filteredDocs ["alpha beta gamma delta epsilon"]).length :=
  (c7_distribution_sums_to_scored (fun _ => 1) ["alpha beta gamma delta epsilon"]).1

/-- C9 witness: the full success-path property at a concrete call. -/
theorem c9_topk_cut_before_length_filter_witness :
    ∃ ps : List (String × ℚ),
      ps.Sublist (sortByWeightDesc [("great product", 2)]) ∧
      ps.Pairwise (fun a b => b.2 ≤ a.2) ∧
      (∀ q ∈ ps, q ∈ (sortByWeightDesc [("great product", 2)]).take 3 ∧
        2 < q.1.length) ∧
      ps.length ≤ 3 ∧
      phrases (fun _ => .ok [("great product", 2)]) 3
          ["this great product works well"] = .ok (ps.map (·.1)) :=
  (c9_topk_cut_before_length_filter (fun _ => .ok [("great product", 2)]) 3
    ["this great product works well"]).2 [("great product", 2)] rfl

/-- C10 witness: the concrete 205-character pair collapses to one entry. -/
theorem c10_dedup_key_first200_lowercased_witness :
    _dedup [String.join (List.replicate 40 "word ") ++ "alpha",
        String.join (List.replicate 40 "word ") ++ "beta!"] =
      [String.join (List.replicate 40 "word ") ++ "alpha"] :=
  (c10_dedup_key_first200_lowercased [] ⟨[], []⟩).2.2.2.2.2.1

end Muse
